import Mathlib

/-!
# Verification of the GWF frame I/O core (`gwpy/timeseries/io/gwf/framecpp.py`)

This file gives a shallow embedding, in Lean 4, of the reader/writer for
gravitational-wave frame (GWF) files found in
`src/gwpy/timeseries/io/gwf/framecpp.py`, and proves (or refutes) the
specification claims about it.

Modelling conventions:

* GPS times, sample spacings and sample values are rationals (`ℚ`): the
  source uses `LIGOTimeGPS`/floats, and every operation it performs on them
  (addition, subtraction, comparison, floor, ceil) is exact arithmetic.
* Python falsiness is modelled explicitly: a time of `0` is the "unbounded"
  sentinel (`if not start: start = 0`), an empty string is a missing
  name/unit, `None`/`0` caller types are "unset".
* The `_Skip` exception used as control flow is modelled with
  `Except Skip _`: `.error .skip` is a raised `_Skip`.
* `numpy` array slicing (`arr[i:j]`, including `j = None` and negative `j`)
  is modelled by `pySlice`; Python `int()` truncation by `truncQ`.
* The external collaborators (the frameCPP stream, the `TimeSeries`
  container) appear as plain data: a stream is its list of frames plus its
  table of contents; a decoded series is a `Frag` (start, step, samples).
  `TimeSeries.append` — a collaborator outside `src/` — is modelled from the
  spec (§6) as time-ordered concatenation.
-/

-- Batteries marks the `Rat` arithmetic operations `@[irreducible]`, which
-- blocks `decide`-style evaluation of concrete runs of the embedded code;
-- restore the ordinary reducibility of these (fully computable) operations.
set_option allowUnsafeReducibility true
attribute [semireducible] Rat.mul Rat.add Rat.inv Rat.sub Rat.neg Rat.div

deriving instance DecidableEq for Except

namespace Gwpy

/-! ## Python-semantics helpers -/

/-- Python `int()` on a rational: truncation toward zero. -/
def truncQ (q : ℚ) : ℤ := if q < 0 then ⌈q⌉ else ⌊q⌋

/-- Resolve a (possibly negative) Python slice end index against a length. -/
def pySliceIdx (len : ℕ) (j : ℤ) : ℕ :=
  if j < 0 then (j + len).toNat else min j.toNat len

/-- Python `arr[i:j]` for `i ≥ 0` and `j` either `None` or an integer. -/
def pySlice (l : List ℚ) (i : ℕ) (j : Option ℤ) : List ℚ :=
  let stop := match j with
    | none => l.length
    | some j => pySliceIdx l.length j
  (l.take stop).drop i

/-- Truthiness of an optional string argument (Python `None` and `""` are
falsy). -/
def strTruthy : Option String → Bool
  | none => false
  | some s => s ≠ ""

/-! ## Association lists (Python `dict` with `str` keys)

The source only ever looks dicts up by key, assigns single keys, and
iterates in insertion order; `alGet`/`alSet` reproduce exactly that
(assignment replaces the existing entry in place, otherwise appends). -/

def alGet {α : Type} : List (String × α) → String → Option α
  | [], _ => none
  | (k', v) :: rest, k => if k' = k then some v else alGet rest k

def alSet {α : Type} : List (String × α) → String → α → List (String × α)
  | [], k, v => [(k, v)]
  | (k', v') :: rest, k, v =>
    if k' = k then (k, v) :: rest else (k', v') :: alSet rest k v

/-! ## Data model -/

/-- `_Skip`: "the contents of a given structure aren't required". -/
inductive Skip : Type
  | skip
  deriving DecidableEq, Repr

/-- An `FrVect`: named, typed 1-D sample array with one dimension
descriptor (`dx` step, `startX` offset) and a y-unit string. -/
structure FrVect where
  name : String
  data : List ℚ
  dx : ℚ
  x0 : ℚ
  unitY : String
  deriving DecidableEq, Repr

/-- An `FrAdcData`/`FrProcData`/`FrSimData` record: a time offset, an
optional time range (`GetTRange` raises `AttributeError` for non-proc
records, modelled by `none`), and contained vectors. -/
structure FrData where
  timeOffset : ℚ
  trange : Option ℚ
  data : List FrVect
  deriving DecidableEq, Repr

/-- A decoded series fragment (the `series_class(...)` call of
`read_frvect`): start time, sample step, samples, name and unit. -/
structure Frag where
  t0 : ℚ
  dt : ℚ
  data : List ℚ
  name : String
  unit : Option String
  deriving DecidableEq, Repr

/-! ## `read_frvect` -/

/-- `read_frvect(vect, epoch, start, end, name=...)`, line for line:

* skip when the vector has a name, a name filter was given, and they differ;
* `nxstart = int(max(0., float(start-dimstart)) / dx)`;
* skip when `nxstart >= nsamp`;
* `nxend = int(nsamp - ceil(max(0., float(dimend-end)) / dx))` when `end`
  is truthy, else `None`;
* slice only `if nxstart or nxend` (Python truthiness: `0`/`None` falsy);
* series start time `dimstart + nxstart*dx`, unit `GetUnitY() or None`. -/
def read_frvect (vect : FrVect) (epoch start endT : ℚ)
    (name : Option String) : Except Skip Frag :=
  if vect.name ≠ "" ∧ strTruthy name ∧ some vect.name ≠ name then
    .error .skip
  else
    let nsamp : ℕ := vect.data.length
    let dx := vect.dx
    let dimstart := epoch + vect.x0
    let dimend := dimstart + nsamp * dx
    let nxstart : ℤ := truncQ (max 0 (start - dimstart) / dx)
    if nsamp ≤ nxstart then
      .error .skip
    else
      let nxend : Option ℤ :=
        if endT ≠ 0 then some (nsamp - ⌈max 0 (dimend - endT) / dx⌉) else none
      let arr :=
        if nxstart ≠ 0 ∨ (nxend ≠ none ∧ nxend ≠ some 0) then
          pySlice vect.data nxstart.toNat nxend
        else vect.data
      .ok { t0 := dimstart + nxstart * dx
            dt := dx
            data := arr
            name := vect.name
            unit := if vect.unitY = "" then none else some vect.unitY }

/-! ## `read_frdata` -/

/-- `TimeSeries.append` — `out.append(new)` on two decoded fragments.
Modelled from the spec: the series container is an external collaborator
(§6 "in-place time-ordered concatenation"); the source performs no
spacing/unit cross-validation (§9), so this is plain concatenation of the
sample buffers under the first fragment's metadata. -/
def fragAppend (o new : Frag) : Frag :=
  { o with data := o.data ++ new.data }

/-- The running fold of `read_frdata`'s vector loop: `_Skip` from
`read_frvect` is swallowed (`continue`), the first successful fragment
becomes the result, later ones are appended. -/
def frdataFold (datastart start endT : ℚ) (name : Option String) :
    List FrVect → Option Frag → Option Frag
  | [], out => out
  | v :: rest, out =>
    match read_frvect v datastart start endT name with
    | .error _ => frdataFold datastart start endT name rest out
    | .ok new =>
      frdataFold datastart start endT name rest
        (match out with
         | none => some new
         | some o => some (fragAppend o new))

/-- `read_frdata(frdata, epoch, start, end, name=...)`:

* `datastart = epoch + frdata.GetTimeOffset()`;
* `trange = frdata.GetTRange()` with `AttributeError → 0.` for non-proc
  records;
* raise `_Skip` when `(end and datastart >= end) or
  (trange and datastart + trange < start)`;
* loop over the contained vectors by index, swallowing per-vector `_Skip`;
* note that when every vector skips, the function returns `None`
  (`.ok none` here) — it does not raise `_Skip`. -/
def read_frdata (frdata : FrData) (epoch start endT : ℚ)
    (name : Option String) : Except Skip (Option Frag) :=
  let datastart := epoch + frdata.timeOffset
  let trange := frdata.trange.getD 0
  if (endT ≠ 0 ∧ endT ≤ datastart) ∨ (trange ≠ 0 ∧ datastart + trange < start) then
    .error .skip
  else
    .ok (frdataFold datastart start endT name frdata.data none)

/-! ## Channel-type resolution (`get_channel_types`) -/

/-- The table of contents of a stream: the three per-type name lists. -/
structure TOC where
  sim : List String
  proc : List String
  adc : List String
  deriving DecidableEq, Repr

/-- `getattr(toc, 'Get{0}'.format(typename))()`. -/
def tocGet (toc : TOC) : String → List String
  | "Sim" => toc.sim
  | "Proc" => toc.proc
  | "ADC" => toc.adc
  | _ => []

/-- A channel-type dict; Python `ctype.get(channel, None)` is falsy for a
missing key or an empty string. -/
abbrev CDict := List (String × String)

/-- `not ctype.get(channel, None)`. -/
def cdictUnset (ct : CDict) (ch : String) : Bool :=
  match alGet ct ch with
  | none => true
  | some s => s = ""

/-- `str.lower()` on one character, for the ASCII range the source's type
names live in. -/
def lowerChar (c : Char) : Char :=
  if 'A' ≤ c ∧ c ≤ 'Z' then Char.ofNat (c.toNat + 32) else c

/-- `str.lower()` (ASCII; the arguments are only ever `"Sim"`, `"Proc"`,
`"ADC"`). -/
def pyLower (s : String) : String := String.mk (s.data.map lowerChar)

/-- The inner loop `for typename in ['Sim', 'Proc', 'ADC']`: the first list
containing the name wins, and the stored type is `typename.lower()`.  (The
`toclist` memoisation of the source is functionally invisible.) -/
def findType (toc : TOC) (name : String) : Option String :=
  (["Sim", "Proc", "ADC"].find? (fun ty => name ∈ tocGet toc ty)).map pyLower

/-- The error raised by `get_channel_types`
(`ValueError: Channel {0} not found in table of contents`) — the spec's
`ChannelNotFoundError`. -/
inductive GErr : Type
  | notFound (ch : String)
  deriving DecidableEq, Repr

/-- Body of `get_channel_types`' `for channel in channels` loop: if the
channel has no (truthy) type yet, look it up in the table of contents; if
it still has none, raise. -/
def gctStep (toc : TOC) (ct : CDict) (ch : String) : Except GErr CDict :=
  let ct :=
    if cdictUnset ct ch then
      match findType toc ch with
      | some ty => alSet ct ch ty
      | none => ct
    else ct
  if cdictUnset ct ch then .error (.notFound ch) else .ok ct

/-- `get_channel_types(stream, channels, ctype=...)`, as a function of the
table of contents and of the contents of the (possibly caller-supplied)
`ctype` dict.  Object identity of that dict is modelled separately in
`get_channel_types_ref`. -/
def get_channel_types (toc : TOC) : List String → CDict → Except GErr CDict
  | [], ct => .ok ct
  | ch :: rest, ct =>
    match gctStep toc ct ch with
    | .error e => .error e
    | .ok ct' => get_channel_types toc rest ct'

/-- `get_channel_types` with Python object identity made explicit: dicts
live in a store of dicts, the caller passes a reference (or `None`).
`ctype = ctype or {}` allocates a fresh dict exactly when the argument is
`None` or an empty dict; all mutations then hit the chosen reference in
place, and that same reference is returned. -/
def get_channel_types_ref (toc : TOC) (channels : List String)
    (arg : Option ℕ) (store : List CDict) : Except GErr (ℕ × List CDict) :=
  let r : ℕ := match arg with
    | some r => if (store.getD r []) = [] then store.length else r
    | none => store.length
  let store := if r = store.length then store ++ [[]] else store
  match get_channel_types toc channels (store.getD r []) with
  | .error e => .error e
  | .ok d => .ok (r, store.set r d)

/-! ## Frame reader (`read_gwf`) -/

/-- One frame of a stream: its GPS epoch (`GetGTime`), its duration
(`GetDt`), and the channel records it holds, keyed by (channel type,
channel name) — the pair addressed by `stream.ReadFr{Type}Data(num, name)`. -/
structure Frame where
  gtime : ℚ
  dt : ℚ
  chans : List (String × String × FrData)
  deriving DecidableEq, Repr

/-- Look a channel record up in a frame by resolved type and name;
`none` models frameCPP raising for a channel absent from this frame. -/
def Frame.dataOf (f : Frame) (ctype name : String) : Option FrData :=
  (f.chans.find? (fun e => e.1 = ctype ∧ e.2.1 = name)).map (fun e => e.2.2)

/-- A frame stream: the frames of one GWF file plus its table of contents.
`GetNumberOfFrames` is `frames.length`, and `ReadFrameN i` succeeds exactly
for `i < frames.length` (the in-range/stale-count distinction of the source
collapses in this model). -/
structure GwfStream where
  frames : List Frame
  toc : TOC
  deriving DecidableEq, Repr

/-- `_need_frame(frame, start, end)`. -/
def need_frame (f : Frame) (start endT : ℚ) : Bool :=
  if endT ≠ 0 ∧ endT ≤ f.gtime then false
  else if start ≠ 0 ∧ f.gtime + f.dt ≤ start then false
  else true

/-- The errors `read_gwf` can surface.  `failedRead` is the post-loop
`ValueError` ("Failed to read ... from ...", the spec's
`ChannelReadError`); `notFound` comes from `get_channel_types`;
`frameReadFailure` models frameCPP raising when a resolved channel is
absent from a frame the loop does read; `hardCrash` models an uncaught
Python-level exception (e.g. `AttributeError`/`TypeError` on the `None`
returned by `read_frdata` when every vector skipped). -/
inductive RErr : Type
  | notFound (ch : String)
  | failedRead (ch : String)
  | frameReadFailure (ch : String)
  | hardCrash
  deriving DecidableEq, Repr

/-- A value held by the accumulation dict `out`.  `some f` is an ordinary
series; `none` is the bogus entry created by
`out[channel] = numpy.require(None, requirements=['O'])` when
`read_frdata` returned `None`. -/
abbrev SeriesVal := Option Frag

abbrev OutMap := List (String × SeriesVal)

/-- `out[channel].append(new)`: appending onto the bogus `None` entry, or
appending `None` itself, raises at the Python level. -/
def seriesAppend (s : SeriesVal) (new : Option Frag) : Except RErr SeriesVal :=
  match s, new with
  | some o, some n => .ok (some (fragAppend o n))
  | _, _ => .error .hardCrash

/-- `span = Segment(start, end)`; `span in series.span` for
`ligo.segments`: the series span contains the request span. -/
def seriesCovers (start endT : ℚ) (f : Frag) : Bool :=
  f.t0 ≤ start ∧ endT ≤ f.t0 + f.data.length * f.dt

/-- `all(span in out[channel].span for channel in out)`: short-circuiting,
in dict insertion order; touching the bogus `None` entry raises
(`AttributeError: 'numpy.ndarray' object has no attribute 'span'`). -/
def allCovered (start endT : ℚ) : OutMap → Except RErr Bool
  | [] => .ok true
  | (_, none) :: _ => .error .hardCrash
  | (_, some f) :: rest =>
    if seriesCovers start endT f then allCovered start endT rest else .ok false

/-- The body of `for channel in channels` inside the frame loop:
`_read_channel` (reader lookup + `read_frdata`), `_Skip` swallowed,
result accumulated into `out`. -/
def chanStep (f : Frame) (start endT : ℚ) (ctm : CDict) (out : OutMap)
    (ch : String) : Except RErr OutMap :=
  match f.dataOf ((alGet ctm ch).getD "") ch with
  | none => .error (.frameReadFailure ch)
  | some frdata =>
    match read_frdata frdata f.gtime start endT (some ch) with
    | .error _ => .ok out
    | .ok new =>
      match alGet out ch with
      | some s =>
        match seriesAppend s new with
        | .error e => .error e
        | .ok s' => .ok (alSet out ch s')
      | none => .ok (out ++ [(ch, new)])

def chanFold (f : Frame) (start endT : ℚ) (ctm : CDict) :
    List String → OutMap → Except RErr OutMap
  | [], out => .ok out
  | ch :: rest, out =>
    match chanStep f start endT ctm out ch with
    | .error e => .error e
    | .ok out' => chanFold f start endT ctm rest out'

/-- The `while True` frame loop of `read_gwf`: frames are visited in
order; a frame that cannot overlap the request is skipped; after reading a
frame's channels, the loop stops early when every accumulated channel
covers the request span; it otherwise ends by exhausting the frames. -/
def gwfLoop (start endT : ℚ) (channels : List String) (ctm : CDict) :
    List Frame → OutMap → Except RErr OutMap
  | [], out => .ok out
  | f :: rest, out =>
    if need_frame f start endT then
      match chanFold f start endT ctm channels out with
      | .error e => .error e
      | .ok out' =>
        match allCovered start endT out' with
        | .error e => .error e
        | .ok true => .ok out'
        | .ok false => gwfLoop start endT channels ctm rest out'
    else gwfLoop start endT channels ctm rest out

/-- The post-loop completeness check: the first requested channel missing
from `out` raises `ValueError` ("Failed to read {channel} from {file}"). -/
def checkAllRead (channels : List String) (out : OutMap) :
    Except RErr OutMap :=
  match channels.find? (fun ch => (alGet out ch).isNone) with
  | some ch => .error (.failedRead ch)
  | none => .ok out

/-- `read_gwf(filename, channels, start=..., end=..., ctype=...)`:
`start`/`end` default to the sentinel `0`, channel types are resolved
against the table of contents, the frame loop accumulates per-channel
series, and any channel never read is a hard failure. -/
def read_gwf (stream : GwfStream) (channels : List String)
    (start endT : ℚ) (ctype0 : CDict) : Except RErr OutMap :=
  match get_channel_types stream.toc channels ctype0 with
  | .error (.notFound ch) => .error (.notFound ch)
  | .ok ctm =>
    match gwfLoop start endT channels ctm stream.frames [] with
    | .error e => .error e
    | .ok out => checkAllRead channels out

/-! ## Type mapping table -/

/-- The frameCPP `FrVect` data-type tags used by the source's mapping. -/
inductive FrVectTy : Type
  | C | t2S | t4S | t8S | t4R | t8R | t8C | t16C | STRING | t1U | t2U | t4U | t8U
  deriving DecidableEq, BEq, Repr

/-- The numpy element types used by the source's mapping. -/
inductive NumpyTy : Type
  | int8 | int16 | int32 | int64 | float32 | float64 | complex64 | complex128
  | string | uint8 | uint16 | uint32 | uint64
  deriving DecidableEq, BEq, Repr

/-- `NUMPY_TYPE_FROM_FRVECT`, entry for entry, in source order. -/
def NUMPY_TYPE_FROM_FRVECT : List (FrVectTy × NumpyTy) :=
  [(.C, .int8), (.t2S, .int16), (.t4S, .int32), (.t8S, .int64),
   (.t4R, .float32), (.t8R, .float64), (.t8C, .complex64),
   (.t16C, .complex128), (.STRING, .string), (.t1U, .uint8),
   (.t2U, .uint16), (.t4U, .uint32), (.t8U, .uint64)]

/-- `FRVECT_TYPE_FROM_NUMPY = dict((v, k) for k, v in
NUMPY_TYPE_FROM_FRVECT.items())`. -/
def FRVECT_TYPE_FROM_NUMPY : List (NumpyTy × FrVectTy) :=
  NUMPY_TYPE_FROM_FRVECT.map (fun kv => (kv.2, kv.1))

/-- `NUMPY_TYPE_FROM_FRVECT[tag]`. -/
def native_type_for (tag : FrVectTy) : Option NumpyTy :=
  NUMPY_TYPE_FROM_FRVECT.lookup tag

/-- `FRVECT_TYPE_FROM_NUMPY[dtype]`. -/
def tag_for (ty : NumpyTy) : Option FrVectTy :=
  FRVECT_TYPE_FROM_NUMPY.lookup ty

/-! ## Frame writer (`write`) -/

/-- The slice of a `TimeSeries` that `write` consumes: `x0`, `dx`, sample
count (`span[1] = x0 + n*dx`), and the channel's `_ctype` (`none` models
both a missing attribute and `None`). -/
structure TSW where
  x0 : ℚ
  dx : ℚ
  n : ℕ
  ctype : Option String
  deriving DecidableEq, Repr

/-- `series.span[1]`. -/
def TSW.endTime (t : TSW) : ℚ := t.x0 + t.n * t.dx

/-- Errors of the write path: the two `RuntimeError`s for inconsistent
start/end times (the spec's `InconsistentSpanError`) and the
`RuntimeError` of `append_to_frame` for an invalid channel type (the
spec's `InvalidChannelTypeError`). -/
inductive WErr : Type
  | inconsistentSpan
  | invalidType (s : String)
  deriving DecidableEq, Repr

/-- `list({...})[0]` after a `len(...) != 1` guard: the unique element of
the value set, when there is exactly one. -/
def uniqueVal (l : List ℚ) : Option ℚ :=
  match l.dedup with
  | [v] => some v
  | _ => none

/-- The assembled frame, to the extent the claims are about it: header
epoch/duration/name/run plus, per input series in input order, the channel
name and the (lowercased, validated) channel type used to build its
record.  The detector-prefix set, the cropped sample payload and the
`FrVect` population are external collaborators
(`io_gwf.create_frame`/`crop`/frameCPP constructors) not modelled here. -/
structure FrameW where
  epoch : ℚ
  duration : ℚ
  name : String
  run : ℤ
  chans : List (String × String)
  deriving DecidableEq, Repr

/-- `append_to_frame(frame, ..., type=ctype, channelid=i)`: dispatch on
`type.lower()`, raising for anything other than adc/proc/sim. -/
def append_to_frame (key : String) (ctype : String) :
    Except WErr (String × String) :=
  if pyLower ctype = "adc" then .ok (key, "adc")
  else if pyLower ctype = "proc" then .ok (key, "proc")
  else if pyLower ctype = "sim" then .ok (key, "sim")
  else .error (.invalidType ctype)

def writeChans (tsdict : List (String × TSW)) :
    Except WErr (List (String × String)) :=
  match tsdict with
  | [] => .ok []
  | (k, t) :: rest =>
    match append_to_frame k ((t.ctype.filter (· ≠ "")).getD "proc") with
    | .error e => .error e
    | .ok c =>
      match writeChans rest with
      | .error e => .error e
      | .ok cs => .ok (c :: cs)

/-- `write(tsdict, outfile, start=..., end=..., name=..., run=..., ...)`:

* `if not start`: all `x0` values must coincide
  (`len({...}) != 1 → RuntimeError`), the common value becomes `start`;
* `if not end`: same for the `span[1]` values;
* only then is the frame constructed (epoch `start`, duration
  `end - start`) and each series appended with its declared type
  (`channel._ctype or 'proc'`). -/
def write (tsdict : List (String × TSW)) (startA endA : Option ℚ)
    (name : String) (run : ℤ) : Except WErr FrameW :=
  let startRes : Except WErr ℚ :=
    match startA with
    | some s =>
      if s ≠ 0 then .ok s else
        match uniqueVal (tsdict.map (fun kv => kv.2.x0)) with
        | some v => .ok v
        | none => .error .inconsistentSpan
    | none =>
      match uniqueVal (tsdict.map (fun kv => kv.2.x0)) with
      | some v => .ok v
      | none => .error .inconsistentSpan
  match startRes with
  | .error e => .error e
  | .ok start =>
    let endRes : Except WErr ℚ :=
      match endA with
      | some e =>
        if e ≠ 0 then .ok e else
          match uniqueVal (tsdict.map (fun kv => kv.2.endTime)) with
          | some v => .ok v
          | none => .error .inconsistentSpan
      | none =>
        match uniqueVal (tsdict.map (fun kv => kv.2.endTime)) with
        | some v => .ok v
        | none => .error .inconsistentSpan
    match endRes with
    | .error e => .error e
    | .ok endT =>
      match writeChans tsdict with
      | .error e => .error e
      | .ok cs =>
        .ok { epoch := start, duration := endT - start, name := name,
              run := run, chans := cs }

/-! ## Multi-file reader (`read`) — buffer-ownership model

The `read` wrapper's claim is about memory: before appending the second
file, `out[name] = numpy.require(out[name], requirements=['O'])`
re-materialises each accumulated series into a buffer the series owns, so
that in-place appends cannot touch memory retained elsewhere.  We model
numpy buffers as slots of an explicit, append-only-indexed store: an array
is a buffer id plus an `OWNDATA` flag; `numpy.require(..., ['O'])` copies
exactly when the array does not own its buffer; the series append of
`TimeSeriesDict.append(..., copy=False)` is modelled from the spec (§6) as
in-place concatenation into the target's buffer. -/

/-- A numpy array: which store buffer it references, and `OWNDATA`. -/
structure NArr where
  buf : ℕ
  owns : Bool
  deriving DecidableEq, Repr

abbrev BufStore := List (List ℚ)

abbrev OutM := List (String × NArr)

/-- `numpy.require(a, requirements=['O'])`: the array itself when it owns
its data, otherwise a freshly-allocated owned copy. -/
def requireO (st : BufStore) (a : NArr) : NArr × BufStore :=
  if a.owns then (a, st)
  else (⟨st.length, true⟩, st ++ [st.getD a.buf []])

/-- `for name in out: out[name] = numpy.require(out[name], ...)` — the
`i == 1` re-materialisation pass. -/
def requireAllO : OutM → BufStore → OutM × BufStore
  | [], st => ([], st)
  | (k, a) :: rest, st =>
    let (a', st') := requireO st a
    let (rest', st'') := requireAllO rest st'
    ((k, a') :: rest', st'')

/-- `out.append(newdict, copy=False)`.  Modelled from the spec:
`TimeSeriesDict.append` of the series collaborator (§6) — for a key
already present, in-place time-ordered concatenation into the existing
series' buffer; for a new key (with `copy=False`), the new array is
adopted by reference. -/
def dictAppendInto : BufStore → OutM → OutM → OutM × BufStore
  | st, out, [] => (out, st)
  | st, out, (k, a) :: rest =>
    match alGet out k with
    | some t =>
      dictAppendInto (st.set t.buf (st.getD t.buf [] ++ st.getD a.buf []))
        out rest
    | none => dictAppendInto st (alSet out k a) rest

/-- The `for i, file_ in enumerate(source)` loop of `read`, generic over
the per-file reader `g` (the `read_gwf` call: it allocates its output
arrays during the call, see `FreshReader`). -/
def readLoop {F : Type} (g : F → BufStore → OutM × BufStore) :
    List F → ℕ → OutM → BufStore → OutM × BufStore
  | [], _, out, st => (out, st)
  | f :: rest, i, out, st =>
    let (out, st) := if i = 1 then requireAllO out st else (out, st)
    let (new, st') := g f st
    let (out, st'') := dictAppendInto st' out new
    readLoop g rest (i + 1) out st''

/-- `read(source, channels, ...)`: fold `read_gwf` over the file list,
starting from an empty accumulation dict. -/
def read_files {F : Type} (g : F → BufStore → OutM × BufStore)
    (files : List F) (st : BufStore) : OutM × BufStore :=
  readLoop g files 0 [] st

/-- What the `read_gwf` collaborator guarantees about memory: it only ever
appends to the store (pre-existing buffers keep their contents), and every
array it returns references a buffer allocated during the call. -/
def FreshReader {F : Type} (g : F → BufStore → OutM × BufStore) : Prop :=
  ∀ f st,
    (∀ b, b < st.length → (g f st).2.getD b [] = st.getD b []) ∧
    st.length ≤ (g f st).2.length ∧
    (∀ kv ∈ (g f st).1, st.length ≤ kv.2.buf)

end Gwpy
namespace Gwpy

/-! ## Helper lemmas -/

theorem alGet_alSet_self {α : Type} (l : List (String × α)) (k : String)
    (v : α) : alGet (alSet l k v) k = some v := by
  induction l with
  | nil => simp [alSet, alGet]
  | cons p rest ih =>
    by_cases h : p.1 = k
    · simp [alSet, alGet, h]
    · simp only [alSet, h, if_false]
      simpa [alGet, h] using ih

theorem alGet_alSet_ne {α : Type} (l : List (String × α)) (k k' : String)
    (v : α) (h : k ≠ k') : alGet (alSet l k v) k' = alGet l k' := by
  induction l with
  | nil => simp [alSet, alGet, h]
  | cons p rest ih =>
    by_cases hp : p.1 = k
    · simp [alSet, alGet, hp, h]
    · simp only [alSet, hp, if_false]
      by_cases hp' : p.1 = k' <;> simp [alGet, hp', ih]

theorem alGet_mem {α : Type} (l : List (String × α)) (k : String) (v : α)
    (h : alGet l k = some v) : (k, v) ∈ l := by
  induction l with
  | nil => simp [alGet] at h
  | cons p rest ih =>
    by_cases hp : p.1 = k
    · simp only [alGet, hp, if_true] at h
      cases h
      rw [← hp]
      exact List.mem_cons_self _ _
    · simp only [alGet, hp, if_false] at h
      exact List.mem_cons_of_mem _ (ih h)

theorem truncQ_of_nonneg (q : ℚ) (h : 0 ≤ q) : truncQ q = ⌊q⌋ := by
  simp [truncQ, not_lt.mpr h]

/-! ## C9 — the type mapping is a total bijection on the supported set -/

/-- C9: for every supported numpy element type `t`,
`native_type_for(tag_for(t)) == t`, and for every supported FrVect tag
`g`, `tag_for(native_type_for(g)) == g`: `NUMPY_TYPE_FROM_FRVECT` and its
inversion `FRVECT_TYPE_FROM_NUMPY` form a total bijection over the
supported 13-element type set. -/
theorem type_mapping_bijection :
    (∀ t : NumpyTy, (tag_for t).bind native_type_for = some t) ∧
    (∀ g : FrVectTy, (native_type_for g).bind tag_for = some g) :=
  ⟨fun t => by cases t <;> rfl, fun g => by cases g <;> rfl⟩

/-! ## C3 — `read_frdata` when every vector skips -/

/-- C3 (code bug): an ADC-style record (`GetTRange` raising
`AttributeError`, so no record-level check against `start`) whose only
vector lies entirely before the requested span `[5, 10)`: the contained
vector raises `_Skip`, yet `read_frdata` returns `None` (`.ok none` here)
instead of signalling skip; the caller (`read_gwf`) only catches `_Skip`,
so this `None` is stored in the output dict as data. -/
theorem read_frdata_allskip_returns_none :
    read_frdata ⟨0, none, [⟨"A", [0, 1, 2, 3, 4], 1, 0, ""⟩]⟩ 0 5 10
        (some "A") = .ok none ∧
    read_frdata ⟨0, none, [⟨"A", [0, 1, 2, 3, 4], 1, 0, ""⟩]⟩ 0 5 10
        (some "A") ≠ .error .skip := by decide

end Gwpy

namespace Gwpy

/-! ## C1 — coverage guarantee of `read_gwf` -/

/-- The concrete stream of the C1 counterexample: one frame at GPS 10 of
duration 5, holding an ADC record for channel `"A"` whose vector covers
`[10, 15)` with `dx = 1`. -/
def c1Stream : GwfStream :=
  ⟨[⟨10, 5, [("adc", "A", ⟨0, none, [⟨"A", [1, 2, 3, 4, 5], 1, 0, ""⟩]⟩)]⟩],
   ⟨[], [], ["A"]⟩⟩

/-- C1 counterexample: requesting `[10, 20)` from `c1Stream` — whose data
ends at 15 — terminates by exhausting the frame list and returns
successfully, with the single requested channel covering only `[10, 15)`:
a partial per-channel result is silently returned, refuting the claimed
"full coverage or hard error" disjunction. -/
theorem read_gwf_partial_coverage_counterexample :
    read_gwf c1Stream ["A"] 10 20 []
        = .ok [("A", some ⟨10, 1, [1, 2, 3, 4, 5], "A", none⟩)] ∧
    seriesCovers 10 20 ⟨10, 1, [1, 2, 3, 4, 5], "A", none⟩ = false := by
  decide

/-- C1 as amended: on success every requested channel is present in the
result (the post-loop check raises `ValueError` for any missing one) — but
a present channel's series need not cover the requested span. -/
theorem read_gwf_ok_contains_all_channels
    (stream : GwfStream) (channels : List String) (start endT : ℚ)
    (ct0 : CDict) (out : OutMap)
    (h : read_gwf stream channels start endT ct0 = .ok out) :
    ∀ ch ∈ channels, (alGet out ch).isSome = true := by
  intro ch hch
  unfold read_gwf at h
  split at h
  · exact absurd h (by simp)
  · split at h
    · exact absurd h (by simp)
    · unfold checkAllRead at h
      split at h
      · exact absurd h (by simp)
      · next hfind =>
          cases h
          have := List.find?_eq_none.mp hfind ch hch
          simpa [Option.isNone_iff_eq_none, Option.isSome_iff_ne_none]
            using this

/-- Witness: a successful concrete run (request `[10, 15)`, fully covered)
at which the amended C1 theorem applies. -/
theorem read_gwf_ok_contains_all_channels_witness :
    (alGet [("A", some (⟨10, 1, [1, 2, 3, 4, 5], "A", none⟩ : Frag))] "A").isSome
      = true :=
  read_gwf_ok_contains_all_channels c1Stream ["A"] 10 15 []
    [("A", some ⟨10, 1, [1, 2, 3, 4, 5], "A", none⟩)] (by decide) "A"
    (by decide)

/-! ## C2 — half-open trimming of `read_frvect` -/

/-- C2 counterexample: vector `[100, 110)`, `dx = 1`, bounded request
`[103.5, 107)`.  The first retained index is `floor(3.5) = 3`, so the
returned fragment starts at GPS 103 — a sample strictly before the
requested start and not equal to it, refuting "every sample lies in
`[start, end)` except one landing exactly at `start`" for misaligned
`start`. -/
theorem read_frvect_misaligned_start_counterexample :
    read_frvect ⟨"A", [0, 1, 2, 3, 4, 5, 6, 7, 8, 9], 1, 0, ""⟩ 100
        (207/2) 107 (some "A") = .ok ⟨103, 1, [3, 4, 5, 6], "A", none⟩ ∧
    (103 : ℚ) < 207/2 := by decide

/-! ## C5 — when `read_frvect` skips versus returns empty -/

/-- C5 counterexample: the sub-sample request `[104.5, 104.6)` against the
vector `[100, 110)` with `dx = 1` yields `nxstart = 4`, `nxend = 4`: the
slice is empty, and `read_frvect` returns a fragment of length zero
instead of treating it as a skip. -/
theorem read_frvect_empty_fragment_counterexample :
    read_frvect ⟨"A", [0, 1, 2, 3, 4, 5, 6, 7, 8, 9], 1, 0, ""⟩ 100
        (209/2) (523/5) (some "A") = .ok ⟨104, 1, [], "A", none⟩ := by decide

/-- C5 as amended: `read_frvect` raises `_Skip` exactly when the name
filter mismatches or the first retained sample index is at least the
sample count; in every other case it returns a fragment, which may have
length zero. -/
theorem read_frvect_skip_iff (v : FrVect) (epoch start endT : ℚ)
    (nf : Option String) :
    read_frvect v epoch start endT nf = .error .skip ↔
      ((v.name ≠ "" ∧ strTruthy nf ∧ some v.name ≠ nf) ∨
        (v.data.length : ℤ) ≤ truncQ (max 0 (start - (epoch + v.x0)) / v.dx)) := by
  by_cases h1 : v.name ≠ "" ∧ strTruthy nf ∧ some v.name ≠ nf
  · simp [read_frvect, h1]
  · by_cases h2 :
      (v.data.length : ℤ) ≤ truncQ (max 0 (start - (epoch + v.x0)) / v.dx)
    · simp [read_frvect, h1, h2]
    · simp [read_frvect, h1, h2]

end Gwpy
namespace Gwpy

/-! ## Index arithmetic of `read_frvect` -/

theorem nxstart_aligned (epoch x0 dx : ℚ) (j : ℕ) (hdx : 0 < dx) :
    truncQ (max 0 ((epoch + x0 + j * dx) - (epoch + x0)) / dx) = j := by
  have h1 : (epoch + x0 + j * dx) - (epoch + x0) = j * dx := by ring
  rw [h1, max_eq_right (by positivity),
    mul_div_cancel_right₀ _ (ne_of_gt hdx),
    truncQ_of_nonneg _ (by positivity)]
  exact_mod_cast Int.floor_natCast j

theorem nxend_aligned (epoch x0 dx : ℚ) (m n : ℕ) (hdx : 0 < dx)
    (hmn : m ≤ n) :
    (n : ℤ) - ⌈max 0 ((epoch + x0 + n * dx) - (epoch + x0 + m * dx)) / dx⌉
      = m := by
  have h1 : (epoch + x0 + n * dx) - (epoch + x0 + m * dx)
      = ((n : ℚ) - m) * dx := by ring
  have h2 : (0 : ℚ) ≤ ((n : ℚ) - m) * dx :=
    mul_nonneg (sub_nonneg.mpr (by exact_mod_cast hmn)) hdx.le
  have h3 : ((n : ℚ) - m) = ((n - m : ℤ) : ℚ) := by push_cast; ring
  rw [h1, max_eq_right h2, mul_div_cancel_right₀ _ (ne_of_gt hdx), h3,
    Int.ceil_intCast]
  omega

/-! ## C2 — amended: exact half-open behaviour on the sample grid -/

/-- C2 as amended: for a bounded request whose endpoints are aligned to
the vector's sample grid (`start = dimstart + j·dx`,
`end = dimstart + m·dx` with `j < m ≤ nsamp`), the fragment consists of
exactly the samples with times in `[start, end)`: the sample landing
exactly at `start` (index `j`) is included and the sample landing exactly
at `end` (index `m`) is excluded.  (For a `start` not on the grid the
fragment may begin up to `dx` before `start` — see the counterexample.) -/
theorem read_frvect_grid_aligned_halfopen
    (data : List ℚ) (nm u : String) (epoch x0 dx : ℚ) (j m : ℕ)
    (hdx : 0 < dx) (hjm : j < m) (hm : m ≤ data.length)
    (hend : epoch + x0 + m * dx ≠ 0) :
    read_frvect ⟨nm, data, dx, x0, u⟩ epoch (epoch + x0 + j * dx)
        (epoch + x0 + m * dx) none
      = .ok ⟨epoch + x0 + j * dx, dx, (data.take m).drop j, nm,
             if u = "" then none else some u⟩ := by
  have hstart := nxstart_aligned epoch x0 dx j hdx
  have hend' := nxend_aligned epoch x0 dx m data.length hdx hm
  have hskip : ¬ ((data.length : ℤ) ≤ (j : ℤ)) := by
    push_neg
    exact_mod_cast lt_of_lt_of_le hjm hm
  have hm0 : ((m : ℤ) ≠ 0) := by omega
  have hguard : ((j : ℤ) ≠ 0) ∨
      ((some (m : ℤ) ≠ (none : Option ℤ)) ∧ some (m : ℤ) ≠ some 0) :=
    Or.inr ⟨by simp, by simpa using hm0⟩
  have hmlt : ¬ ((m : ℤ) < 0) := by omega
  have hslice : pySlice data ((j : ℤ)).toNat (some (m : ℤ))
      = (data.take m).drop j := by
    simp only [pySlice, pySliceIdx, if_neg hmlt, Int.toNat_natCast,
      min_eq_left hm]
  simp only [read_frvect, strTruthy, Bool.false_eq_true, false_and, and_false,
    if_false, ite_false, hstart, hskip, hend, hend', ne_eq, not_false_iff,
    if_true, ite_true, hguard, hslice]
  simp [hend, hguard, hslice, hstart, min_eq_left hm]

end Gwpy
namespace Gwpy

/-- Witness for the amended C2 theorem: vector `[200, 208)` with `dx = 1`,
aligned request `[202, 206)` returns exactly the samples at indices 2–5. -/
theorem read_frvect_grid_aligned_halfopen_witness :
    read_frvect ⟨"B", [0, 1, 2, 3, 4, 5, 6, 7], 1, 0, "ct"⟩ 200 202 206 none
      = .ok ⟨202, 1, [2, 3, 4, 5], "B", some "ct"⟩ := by
  have h := read_frvect_grid_aligned_halfopen [0, 1, 2, 3, 4, 5, 6, 7] "B"
      "ct" 200 0 1 2 6 (by norm_num) (by norm_num) (by norm_num)
      (by norm_num)
  norm_num at h
  exact h

/-! ## C4 — the index formulas of `read_frvect` -/

/-- C4: `read_frvect` computes the first retained index as
`floor(max(0, start - vector.start) / dx)` and skips when that index
reaches the sample count; with `end` set, the exclusive last index is
`nsamp - ceil(max(0, vector.end - end) / dx)`, and the fragment is the
corresponding slice with start time adjusted by `nxstart·dx`.  (The
`nxs ≠ 0 ∨ nxe ≠ 0` hypothesis is the source's `if nxstart or nxend`
slicing guard.) -/
theorem read_frvect_index_arithmetic
    (data : List ℚ) (epoch x0 dx start endT : ℚ)
    (hdx : 0 < dx) (hend : endT ≠ 0) :
    ((data.length : ℤ) ≤ ⌊max 0 (start - (epoch + x0)) / dx⌋ →
      read_frvect ⟨"", data, dx, x0, ""⟩ epoch start endT none
        = .error .skip) ∧
    (∀ nxs nxe : ℤ,
      nxs = ⌊max 0 (start - (epoch + x0)) / dx⌋ →
      nxe = (data.length : ℤ) -
          ⌈max 0 (epoch + x0 + data.length * dx - endT) / dx⌉ →
      nxs < (data.length : ℤ) → (nxs ≠ 0 ∨ nxe ≠ 0) →
      read_frvect ⟨"", data, dx, x0, ""⟩ epoch start endT none
        = .ok ⟨epoch + x0 + nxs * dx, dx,
               (data.take (pySliceIdx data.length nxe)).drop nxs.toNat, "",
               none⟩) := by
  have htr : truncQ (max 0 (start - (epoch + x0)) / dx)
      = ⌊max 0 (start - (epoch + x0)) / dx⌋ :=
    truncQ_of_nonneg _ (div_nonneg (le_max_left _ _) hdx.le)
  constructor
  · intro h
    simp [read_frvect, htr, h]
  · intro nxs nxe hnxs hnxe hlt hne
    subst hnxs
    subst hnxe
    have hskip : ¬ ((data.length : ℤ)
        ≤ ⌊max 0 (start - (epoch + x0)) / dx⌋) := not_le.mpr hlt
    rcases hne with h | h
    · simp [read_frvect, pySlice, htr, hskip, hend, h]
    · simp [read_frvect, pySlice, htr, hskip, hend, h]

/-- Witness for C4 at the spec's own example: vector `[100, 110)` with
`dx = 1`, request `[103, 107)` → indices 3, 4, 5, 6, adjusted start 103. -/
theorem read_frvect_index_arithmetic_witness :
    read_frvect ⟨"", [0, 10, 20, 30, 40, 50, 60, 70, 80, 90], 1, 0, ""⟩ 100
        103 107 none = .ok ⟨103, 1, [30, 40, 50, 60], "", none⟩ := by
  have h := (read_frvect_index_arithmetic
      [0, 10, 20, 30, 40, 50, 60, 70, 80, 90] 100 0 1 103 107 (by norm_num)
      (by norm_num)).2 3 7 (by decide) (by decide) (by decide) (by decide)
  rw [h]
  decide

end Gwpy
namespace Gwpy

/-! ## C7/C10 — channel-type resolution -/

/-- The claim's formulation of the resolver (stated from the spec's words,
for comparison with `findType`): membership in the Sim list, else the Proc
list, else the ADC list, in that fixed priority order. -/
def priorityTypeSpec (toc : TOC) (ch : String) : Option String :=
  if ch ∈ toc.sim then some "sim"
  else if ch ∈ toc.proc then some "proc"
  else if ch ∈ toc.adc then some "adc"
  else none

theorem pyLower_Sim : pyLower "Sim" = "sim" := by decide

theorem pyLower_Proc : pyLower "Proc" = "proc" := by decide

theorem pyLower_ADC : pyLower "ADC" = "adc" := by decide

theorem tocGet_Sim (toc : TOC) : tocGet toc "Sim" = toc.sim := rfl

theorem tocGet_Proc (toc : TOC) : tocGet toc "Proc" = toc.proc := rfl

theorem tocGet_ADC (toc : TOC) : tocGet toc "ADC" = toc.adc := rfl

/-- The source's `for typename in ['Sim', 'Proc', 'ADC']` loop computes the
claim's if-chain. -/
theorem findType_eq_priority (toc : TOC) (ch : String) :
    findType toc ch = priorityTypeSpec toc ch := by
  by_cases h1 : ch ∈ toc.sim <;> by_cases h2 : ch ∈ toc.proc <;>
    by_cases h3 : ch ∈ toc.adc <;>
      simp [findType, priorityTypeSpec, List.find?, tocGet_Sim, tocGet_Proc,
        tocGet_ADC, h1, h2, h3, pyLower_Sim, pyLower_Proc, pyLower_ADC]

theorem priorityTypeSpec_mem (toc : TOC) (ch : String) (ty : String)
    (h : priorityTypeSpec toc ch = some ty) :
    ty = "sim" ∨ ty = "proc" ∨ ty = "adc" := by
  unfold priorityTypeSpec at h
  by_cases h1 : ch ∈ toc.sim <;> by_cases h2 : ch ∈ toc.proc <;>
    by_cases h3 : ch ∈ toc.adc <;> simp [h1, h2, h3] at h <;> simp [← h]

theorem findType_ne_empty (toc : TOC) (ch : String) (ty : String)
    (h : findType toc ch = some ty) : ty ≠ "" := by
  rw [findType_eq_priority] at h
  rcases priorityTypeSpec_mem toc ch ty h with h | h | h <;> subst h <;> decide

theorem cdictUnset_congr (a b : CDict) (k : String)
    (h : alGet a k = alGet b k) : cdictUnset a k = cdictUnset b k := by
  simp [cdictUnset, h]

/-- What one loop iteration does to the dict: nothing when the channel is
already (truthily) typed, otherwise a successful table-of-contents lookup
is written to the channel's key. -/
theorem gctStep_ok_elim (toc : TOC) (ct : CDict) (c : String) (ct2 : CDict)
    (h : gctStep toc ct c = .ok ct2) :
    (cdictUnset ct c = false ∧ ct2 = ct) ∨
    (cdictUnset ct c = true ∧
      ∃ ty, findType toc c = some ty ∧ ct2 = alSet ct c ty) := by
  unfold gctStep at h
  by_cases hu : cdictUnset ct c = true
  · cases hf : findType toc c with
    | none => rw [hf] at h; simp [hu] at h
    | some ty =>
      rw [hf] at h
      simp only [hu, if_true] at h
      by_cases hu2 : cdictUnset (alSet ct c ty) c = true
      · simp [hu2] at h
      · simp only [Bool.not_eq_true] at hu2
        simp only [hu2, Bool.false_eq_true, if_false, Except.ok.injEq] at h
        exact Or.inr ⟨hu, ty, rfl, h.symm⟩
  · simp only [Bool.not_eq_true] at hu
    simp only [hu, Bool.false_eq_true, if_false, Except.ok.injEq] at h
    exact Or.inl ⟨hu, h.symm⟩

/-- Entries that are already truthily set are never touched by the loop. -/
theorem gct_preserves (toc : TOC) (chs : List String) :
    ∀ (ct ct' : CDict) (k : String),
      get_channel_types toc chs ct = .ok ct' → cdictUnset ct k = false →
      alGet ct' k = alGet ct k := by
  induction chs with
  | nil =>
    intro ct ct' k h _
    simp only [get_channel_types, Except.ok.injEq] at h
    rw [← h]
  | cons c rest ih =>
    intro ct ct' k h hk
    simp only [get_channel_types] at h
    cases hstep : gctStep toc ct c with
    | error e => rw [hstep] at h; simp at h
    | ok ct2 =>
      rw [hstep] at h
      have hget : alGet ct2 k = alGet ct k := by
        rcases gctStep_ok_elim toc ct c ct2 hstep with ⟨_, rfl⟩ | ⟨hu, ty, _, rfl⟩
        · rfl
        · by_cases hck : c = k
          · subst hck
            rw [hu] at hk
            exact absurd hk (by simp)
          · exact alGet_alSet_ne ct c k ty hck
      have hk2 : cdictUnset ct2 k = false := by
        rw [cdictUnset_congr ct2 ct k hget]
        exact hk
      rw [ih ct2 ct' k h hk2, hget]

/-- A requested channel that starts untyped ends resolved to the
table-of-contents lookup (which must succeed). -/
theorem gct_resolves (toc : TOC) (chs : List String) :
    ∀ (ct ct' : CDict) (k : String),
      get_channel_types toc chs ct = .ok ct' → k ∈ chs →
      cdictUnset ct k = true →
      alGet ct' k = findType toc k ∧ findType toc k ≠ none := by
  induction chs with
  | nil => intro ct ct' k _ hk; exact absurd hk (by simp)
  | cons c rest ih =>
    intro ct ct' k h hk hu
    simp only [get_channel_types] at h
    cases hstep : gctStep toc ct c with
    | error e => rw [hstep] at h; simp at h
    | ok ct2 =>
      rw [hstep] at h
      by_cases hck : c = k
      · subst hck
        rcases gctStep_ok_elim toc ct c ct2 hstep with ⟨hu', _⟩ | ⟨_, ty, hf, rfl⟩
        · rw [hu] at hu'; exact absurd hu' (by simp)
        · have hget : alGet (alSet ct c ty) c = some ty := alGet_alSet_self ct c ty
          have hne : cdictUnset (alSet ct c ty) c = false := by
            simp [cdictUnset, hget, findType_ne_empty toc c ty hf]
          rw [gct_preserves toc rest _ ct' c h hne, hget, hf]
          simp
      · have hget : alGet ct2 k = alGet ct k := by
          rcases gctStep_ok_elim toc ct c ct2 hstep with ⟨_, rfl⟩ | ⟨_, ty, _, rfl⟩
          · rfl
          · exact alGet_alSet_ne ct c k ty hck
        have hu2 : cdictUnset ct2 k = true := by
          rw [cdictUnset_congr ct2 ct k hget]
          exact hu
        have hkr : k ∈ rest := by
          cases hk with
          | head => exact absurd rfl hck
          | tail _ hmem => exact hmem
        exact ih ct2 ct' k h hkr hu2

/-- A requested channel that starts untyped and is in none of the three
lists makes the whole resolution fail. -/
theorem gct_error (toc : TOC) (chs : List String) :
    ∀ (ct : CDict) (k : String), k ∈ chs → cdictUnset ct k = true →
      findType toc k = none →
      ∃ e, get_channel_types toc chs ct = .error e := by
  induction chs with
  | nil => intro ct k hk; exact absurd hk (by simp)
  | cons c rest ih =>
    intro ct k hk hu hf
    cases hstep : gctStep toc ct c with
    | error e =>
      refine ⟨e, ?_⟩
      simp only [get_channel_types]
      rw [hstep]
    | ok ct2 =>
      by_cases hck : c = k
      · subst hck
        rcases gctStep_ok_elim toc ct c ct2 hstep with ⟨hu', _⟩ | ⟨_, ty, hf', _⟩
        · rw [hu] at hu'; exact absurd hu' (by simp)
        · rw [hf] at hf'; exact absurd hf' (by simp)
      · have hget : alGet ct2 k = alGet ct k := by
          rcases gctStep_ok_elim toc ct c ct2 hstep with ⟨_, rfl⟩ | ⟨_, ty, _, rfl⟩
          · rfl
          · exact alGet_alSet_ne ct c k ty hck
        have hu2 : cdictUnset ct2 k = true := by
          rw [cdictUnset_congr ct2 ct k hget]
          exact hu
        have hkr : k ∈ rest := by
          cases hk with
          | head => exact absurd rfl hck
          | tail _ hmem => exact hmem
        obtain ⟨e, he⟩ := ih ct2 k hkr hu2 hf
        refine ⟨e, ?_⟩
        simp only [get_channel_types]
        rw [hstep]
        exact he

/-- C7: for each requested channel without a caller-supplied type,
`get_channel_types` resolves the type by membership in the Sim list, else
the Proc list, else the ADC list (the `priorityTypeSpec` if-chain), and
fails (`ValueError`, the spec's `ChannelNotFoundError` — `GErr.notFound`
is its only form) when the name appears in none of the three lists. -/
theorem get_channel_types_priority (toc : TOC) (channels : List String)
    (ct0 : CDict) :
    (∀ ct, get_channel_types toc channels ct0 = .ok ct →
      ∀ ch ∈ channels, cdictUnset ct0 ch = true →
        alGet ct ch = priorityTypeSpec toc ch ∧
        priorityTypeSpec toc ch ≠ none) ∧
    (∀ ch ∈ channels, cdictUnset ct0 ch = true →
      priorityTypeSpec toc ch = none →
      ∃ e, get_channel_types toc channels ct0 = .error e) := by
  constructor
  · intro ct h ch hch hu
    have := gct_resolves toc channels ct0 ct ch h hch hu
    rwa [findType_eq_priority] at this
  · intro ch hch hu hnone
    exact gct_error toc channels ct0 ch hch hu
      (by rwa [findType_eq_priority])

/-- Witness for C7: table of contents with `"X"` in all three lists (Sim
wins), `"P"` in Proc and ADC (Proc wins), `"A"` in ADC only. -/
theorem get_channel_types_priority_witness :
    get_channel_types ⟨["X"], ["X", "P"], ["X", "P", "A"]⟩ ["X", "P", "A"] []
        = .ok [("X", "sim"), ("P", "proc"), ("A", "adc")] ∧
    alGet [("X", "sim"), ("P", "proc"), ("A", "adc")] "X"
        = priorityTypeSpec ⟨["X"], ["X", "P"], ["X", "P", "A"]⟩ "X" := by
  constructor
  · decide
  · exact ((get_channel_types_priority ⟨["X"], ["X", "P"], ["X", "P", "A"]⟩
      ["X", "P", "A"] []).1 [("X", "sim"), ("P", "proc"), ("A", "adc")]
      (by decide) "X" (by decide) (by decide)).1

end Gwpy
namespace Gwpy

theorem getD_set_self (store : List CDict) (r : ℕ) (d : CDict)
    (h : r < store.length) : (store.set r d).getD r [] = d := by
  simp [List.getD_eq_getElem?_getD, List.getElem?_set_eq_of_lt _ h]

theorem getD_set_ne (store : List CDict) (r i : ℕ) (d : CDict)
    (h : i ≠ r) : (store.set r d).getD i [] = store.getD i [] := by
  simp [List.getD_eq_getElem?_getD, List.getElem?_set_ne (Ne.symm h)]

/-- C10: when the caller passes a reference to a non-empty `ctype` dict,
`get_channel_types` keeps working on that same object (`ctype or {}` does
not replace it): the returned reference is the caller's own (`r' = r`),
every requested channel it resolves becomes visible through the caller's
dict as a lowercase type string, and no other dict in the store is
touched. -/
theorem get_channel_types_ref_mutates_in_place (toc : TOC)
    (channels : List String) (r : ℕ) (store : List CDict) (r' : ℕ)
    (store' : List CDict) (hr : r < store.length)
    (hnonempty : store.getD r [] ≠ [])
    (h : get_channel_types_ref toc channels (some r) store
        = .ok (r', store')) :
    r' = r ∧
    (∀ ch ∈ channels, cdictUnset (store.getD r []) ch = true →
      ∃ ty, alGet (store'.getD r []) ch = some ty ∧
        (ty = "sim" ∨ ty = "proc" ∨ ty = "adc")) ∧
    (∀ i, i ≠ r → store'.getD i [] = store.getD i []) := by
  unfold get_channel_types_ref at h
  simp only [hnonempty, if_false, ite_false, Nat.ne_of_lt hr] at h
  cases hg : get_channel_types toc channels (store.getD r []) with
  | error e => rw [hg] at h; simp at h
  | ok d =>
    rw [hg] at h
    simp only [Except.ok.injEq, Prod.mk.injEq] at h
    obtain ⟨hr', hs'⟩ := h
    subst hr'
    subst hs'
    refine ⟨rfl, ?_, ?_⟩
    · intro ch hch hu
      obtain ⟨hres, hne⟩ :=
        gct_resolves toc channels (store.getD r []) d ch hg hch hu
      rw [findType_eq_priority] at hres hne
      cases hp : priorityTypeSpec toc ch with
      | none => exact absurd hp hne
      | some ty =>
        rw [hp] at hres
        refine ⟨ty, ?_, priorityTypeSpec_mem toc ch ty hp⟩
        rw [getD_set_self store r d hr]
        exact hres
    · intro i hi
      exact getD_set_ne store r i d hi

/-- Witness for C10: a caller-supplied non-empty dict (ref 0) typing `"B"`
by hand; the requested channels `"A"` and `"B"` leave `"B"` alone and add
a lowercase `"adc"` entry for `"A"` to the same dict. -/
theorem get_channel_types_ref_mutates_in_place_witness :
    get_channel_types_ref ⟨[], [], ["A"]⟩ ["A", "B"] (some 0)
        [[("B", "proc")]] = .ok (0, [[("B", "proc"), ("A", "adc")]]) ∧
    (∃ ty, alGet ([[("B", "proc"), ("A", "adc")]].getD 0 []) "A" = some ty ∧
      (ty = "sim" ∨ ty = "proc" ∨ ty = "adc")) := by
  constructor
  · decide
  · exact (get_channel_types_ref_mutates_in_place ⟨[], [], ["A"]⟩ ["A", "B"]
      0 [[("B", "proc")]] 0 [[("B", "proc"), ("A", "adc")]] (by decide)
      (by decide) (by decide)).2.1 "A" (by decide) (by decide)

end Gwpy
namespace Gwpy

/-! ## C8 — inconsistent implicit spans are rejected before assembly -/

theorem uniqueVal_eq_none {l : List ℚ} {a b : ℚ} (ha : a ∈ l) (hb : b ∈ l)
    (hab : a ≠ b) : uniqueVal l = none := by
  have ha' : a ∈ l.dedup := List.mem_dedup.mpr ha
  have hb' : b ∈ l.dedup := List.mem_dedup.mpr hb
  rcases hd : l.dedup with _ | ⟨v, _ | ⟨w, t⟩⟩
  · rw [hd] at ha'
    exact absurd ha' (by simp)
  · rw [hd] at ha' hb'
    simp only [List.mem_singleton] at ha' hb'
    exact absurd (ha'.trans hb'.symm) hab
  · simp [uniqueVal, hd]

/-- C8: `write` called without an explicit `start` (Python-falsy: `None`
or `0`) fails with the inconsistent-span `RuntimeError` when the input
series do not all share one start time — before any frame is constructed
(the error return precedes the frame value in `write`); same for `end`
with the series' `span[1]` values once `start` is given. -/
theorem write_inconsistent_span (tsdict : List (String × TSW))
    (nm : String) (run : ℤ) (k1 k2 : String) (t1 t2 : TSW)
    (h1 : (k1, t1) ∈ tsdict) (h2 : (k2, t2) ∈ tsdict) :
    (∀ endA, t1.x0 ≠ t2.x0 →
      write tsdict none endA nm run = .error .inconsistentSpan ∧
      write tsdict (some 0) endA nm run = .error .inconsistentSpan) ∧
    (∀ s : ℚ, s ≠ 0 → t1.endTime ≠ t2.endTime →
      write tsdict (some s) none nm run = .error .inconsistentSpan ∧
      write tsdict (some s) (some 0) nm run = .error .inconsistentSpan) := by
  constructor
  · intro endA hx
    have hu : uniqueVal (tsdict.map (fun kv => kv.2.x0)) = none :=
      uniqueVal_eq_none (List.mem_map_of_mem _ h1)
        (List.mem_map_of_mem _ h2) hx
    exact ⟨by simp [write, hu], by simp [write, hu]⟩
  · intro s hs hx
    have hu : uniqueVal (tsdict.map (fun kv => kv.2.endTime)) = none :=
      uniqueVal_eq_none (List.mem_map_of_mem _ h1)
        (List.mem_map_of_mem _ h2) hx
    exact ⟨by simp [write, hu, hs], by simp [write, hu, hs]⟩

/-- Witness for C8: two series starting at 0 and 1 with no explicit
`start`. -/
theorem write_inconsistent_span_witness :
    write [("A", ⟨0, 1, 5, none⟩), ("B", ⟨1, 1, 5, none⟩)] none none
        "gwpy" 0 = .error .inconsistentSpan :=
  ((write_inconsistent_span
      [("A", ⟨0, 1, 5, none⟩), ("B", ⟨1, 1, 5, none⟩)] "gwpy" 0 "A" "B"
      ⟨0, 1, 5, none⟩ ⟨1, 1, 5, none⟩ (by decide) (by decide)).1 none
      (by decide)).1

end Gwpy
namespace Gwpy

/-! ## C6 — copy-on-first-append isolation in the multi-file reader -/

theorem getD_set_ne_gen {α : Type} (l : List α) (r i : ℕ) (a d : α)
    (h : i ≠ r) : (l.set r a).getD i d = l.getD i d := by
  simp [List.getD_eq_getElem?_getD, List.getElem?_set_ne (Ne.symm h)]

theorem alSet_mem {α : Type} (l : List (String × α)) (k : String) (v : α) :
    ∀ kv ∈ alSet l k v, kv ∈ l ∨ kv = (k, v) := by
  induction l with
  | nil => intro kv hkv; simp [alSet] at hkv; simp [hkv]
  | cons p rest ih =>
    intro kv hkv
    by_cases hp : p.1 = k
    · simp only [alSet, hp, if_true] at hkv
      rcases List.mem_cons.mp hkv with rfl | h'
      · exact Or.inr rfl
      · exact Or.inl (List.mem_cons_of_mem _ h')
    · simp only [alSet, hp, if_false] at hkv
      rcases List.mem_cons.mp hkv with rfl | h'
      · exact Or.inl (List.mem_cons_self _ _)
      · rcases ih kv h' with h | h
        · exact Or.inl (List.mem_cons_of_mem _ h)
        · exact Or.inr h

/-- Every array coming out of the `i == 1` re-materialisation pass owns
its buffer. -/
theorem requireAllO_owns : ∀ (out : OutM) (st : BufStore)
    (kv : String × NArr), kv ∈ (requireAllO out st).1 → kv.2.owns = true := by
  intro out
  induction out with
  | nil => intro st kv h; simp [requireAllO] at h
  | cons p rest ih =>
    intro st kv h
    obtain ⟨k, a⟩ := p
    by_cases ho : a.owns
    · have he : requireO st a = (a, st) := by simp [requireO, ho]
      simp only [requireAllO, he] at h
      rcases List.mem_cons.mp h with rfl | h'
      · exact ho
      · exact ih st kv h'
    · have he : requireO st a
          = (⟨st.length, true⟩, st ++ [st.getD a.buf []]) := by
        simp [requireO, ho]
      simp only [requireAllO, he] at h
      rcases List.mem_cons.mp h with rfl | h'
      · rfl
      · exact ih _ kv h'

/-- The re-materialisation pass only appends fresh buffers: existing store
entries are untouched, the store only grows, and the resulting arrays
reference buffers no older than the caller's bound. -/
theorem requireAllO_spec : ∀ (out : OutM) (st : BufStore) (n : ℕ),
    n ≤ st.length → (∀ kv ∈ out, n ≤ kv.2.buf) →
    (∀ b, b < st.length →
      (requireAllO out st).2.getD b [] = st.getD b []) ∧
    st.length ≤ (requireAllO out st).2.length ∧
    (∀ kv ∈ (requireAllO out st).1, n ≤ kv.2.buf) := by
  intro out
  induction out with
  | nil =>
    intro st n h1 h2
    exact ⟨fun b _ => rfl, le_refl _, by simp [requireAllO]⟩
  | cons p rest ih =>
    intro st n h1 h2
    obtain ⟨k, a⟩ := p
    have ha : n ≤ a.buf := h2 (k, a) (List.mem_cons_self _ _)
    have hrest : ∀ kv ∈ rest, n ≤ kv.2.buf :=
      fun kv hkv => h2 kv (List.mem_cons_of_mem _ hkv)
    by_cases ho : a.owns
    · have he : requireO st a = (a, st) := by simp [requireO, ho]
      obtain ⟨ihp, ihl, ihb⟩ := ih st n h1 hrest
      refine ⟨?_, ?_, ?_⟩
      · intro b hb
        simp only [requireAllO, he]
        exact ihp b hb
      · simp only [requireAllO, he]
        exact ihl
      · intro kv hkv
        simp only [requireAllO, he] at hkv
        rcases List.mem_cons.mp hkv with rfl | h'
        · exact ha
        · exact ihb kv h'
    · have he : requireO st a
          = (⟨st.length, true⟩, st ++ [st.getD a.buf []]) := by
        simp [requireO, ho]
      have hlen : st.length ≤ (st ++ [st.getD a.buf []]).length := by
        simp
      obtain ⟨ihp, ihl, ihb⟩ :=
        ih (st ++ [st.getD a.buf []]) n (le_trans h1 hlen) hrest
      refine ⟨?_, ?_, ?_⟩
      · intro b hb
        simp only [requireAllO, he]
        rw [ihp b (lt_of_lt_of_le hb hlen)]
        exact List.getD_append _ _ _ _ hb
      · simp only [requireAllO, he]
        exact le_trans hlen ihl
      · intro kv hkv
        simp only [requireAllO, he] at hkv
        rcases List.mem_cons.mp hkv with rfl | h'
        · exact le_trans h1 (le_refl _)
        · exact ihb kv h'

/-- The dict append of one file's results writes only into buffers at or
above the caller's bound, and the store never shrinks. -/
theorem dictAppendInto_spec : ∀ (other : OutM) (st : BufStore)
    (out : OutM) (n : ℕ),
    n ≤ st.length → (∀ kv ∈ out, n ≤ kv.2.buf) →
    (∀ kv ∈ other, n ≤ kv.2.buf) →
    (∀ b, b < n → (dictAppendInto st out other).2.getD b [] = st.getD b []) ∧
    n ≤ (dictAppendInto st out other).2.length ∧
    (∀ kv ∈ (dictAppendInto st out other).1, n ≤ kv.2.buf) := by
  intro other
  induction other with
  | nil =>
    intro st out n h1 h2 _
    exact ⟨fun b _ => rfl, h1, h2⟩
  | cons p rest ih =>
    intro st out n h1 h2 h3
    obtain ⟨k, a⟩ := p
    have ha : n ≤ a.buf := h3 (k, a) (List.mem_cons_self _ _)
    have hrest : ∀ kv ∈ rest, n ≤ kv.2.buf :=
      fun kv hkv => h3 kv (List.mem_cons_of_mem _ hkv)
    cases hg : alGet out k with
    | some t =>
      have ht : n ≤ t.buf := h2 (k, t) (alGet_mem out k t hg)
      have h1' : n ≤ (st.set t.buf
          (st.getD t.buf [] ++ st.getD a.buf [])).length := by
        rw [List.length_set]
        exact h1
      obtain ⟨ihp, ihl, ihb⟩ :=
        ih (st.set t.buf (st.getD t.buf [] ++ st.getD a.buf [])) out n h1'
          h2 hrest
      refine ⟨?_, ?_, ?_⟩
      · intro b hb
        simp only [dictAppendInto, hg]
        rw [ihp b hb]
        exact getD_set_ne_gen st t.buf b _ []
          (Nat.ne_of_lt (lt_of_lt_of_le hb ht))
      · simp only [dictAppendInto, hg]
        exact ihl
      · intro kv hkv
        simp only [dictAppendInto, hg] at hkv
        exact ihb kv hkv
    | none =>
      have h2' : ∀ kv ∈ alSet out k a, n ≤ kv.2.buf := by
        intro kv hkv
        rcases alSet_mem out k a kv hkv with h | rfl
        · exact h2 kv h
        · exact ha
      obtain ⟨ihp, ihl, ihb⟩ := ih st (alSet out k a) n h1 h2' hrest
      refine ⟨?_, ?_, ?_⟩
      · intro b hb
        simp only [dictAppendInto, hg]
        exact ihp b hb
      · simp only [dictAppendInto, hg]
        exact ihl
      · intro kv hkv
        simp only [dictAppendInto, hg] at hkv
        exact ihb kv hkv

/-- The multi-file loop never writes below a bound that dominates its
accumulated arrays and is within the store. -/
theorem readLoop_preserves {F : Type} (g : F → BufStore → OutM × BufStore)
    (hg : FreshReader g) : ∀ (files : List F) (i : ℕ) (out : OutM)
    (st : BufStore) (n : ℕ),
    n ≤ st.length → (∀ kv ∈ out, n ≤ kv.2.buf) →
    ∀ b, b < n → (readLoop g files i out st).2.getD b [] = st.getD b [] := by
  intro files
  induction files with
  | nil => intro i out st n h1 h2 b hb; rfl
  | cons f rest ih =>
    intro i out st n h1 h2 b hb
    have hP : (∀ b', b' < n →
          (if i = 1 then requireAllO out st else (out, st)).2.getD b' []
            = st.getD b' []) ∧
        n ≤ (if i = 1 then requireAllO out st else (out, st)).2.length ∧
        (∀ kv ∈ (if i = 1 then requireAllO out st else (out, st)).1,
          n ≤ kv.2.buf) := by
      by_cases hi : i = 1
      · obtain ⟨rp, rl, rb⟩ := requireAllO_spec out st n h1 h2
        simp only [hi, if_true]
        exact ⟨fun b' hb' => rp b' (lt_of_lt_of_le hb' h1),
          le_trans h1 rl, rb⟩
      · simp only [hi, if_false]
        exact ⟨fun b' _ => by trivial, h1, h2⟩
    rcases hPair : (if i = 1 then requireAllO out st else (out, st)) with
      ⟨out1, st1⟩
    rw [hPair] at hP
    obtain ⟨p1, l1, b1⟩ := hP
    rcases hgf : g f st1 with ⟨new, st2⟩
    have hfr := hg f st1
    rw [hgf] at hfr
    obtain ⟨p2, l2, b2⟩ := hfr
    have hnew : ∀ kv ∈ new, n ≤ kv.2.buf :=
      fun kv hkv => le_trans l1 (b2 kv hkv)
    rcases hda : dictAppendInto st2 out1 new with ⟨out2, st3⟩
    have hd := dictAppendInto_spec new st2 out1 n (le_trans l1 l2) b1 hnew
    rw [hda] at hd
    obtain ⟨p3, l3, b3⟩ := hd
    have hrec := ih (i + 1) out2 st3 n l3 b3 b hb
    calc (readLoop g (f :: rest) i out st).2.getD b []
        = (readLoop g rest (i + 1) out2 st3).2.getD b [] := by
          simp only [readLoop, hPair, hgf, hda]
      _ = st3.getD b [] := hrec
      _ = st2.getD b [] := p3 b hb
      _ = st1.getD b [] := p2 b (lt_of_lt_of_le hb l1)
      _ = st.getD b [] := p1 b hb

/-- C6: (a) the `i == 1` pass (`numpy.require(..., ['O'])` over every
accumulated channel) leaves every accumulated series in an independently
owned buffer before the second file's data is appended; (b) provided the
per-file reader only returns arrays over buffers it allocated during the
call (`FreshReader`, which `read_gwf` satisfies: its output arrays are
built from the stream it opens in that call), a whole `read` over any file
list never mutates any buffer that existed before the call — in
particular a separately retained reference to the result of reading the
first file alone is never altered by a later multi-file read appending
data. -/
theorem read_copy_on_append_isolation :
    (∀ (out : OutM) (st : BufStore) (kv : String × NArr),
      kv ∈ (requireAllO out st).1 → kv.2.owns = true) ∧
    (∀ (F : Type) (g : F → BufStore → OutM × BufStore), FreshReader g →
      ∀ (files : List F) (st : BufStore) (b : ℕ), b < st.length →
        (read_files g files st).2.getD b [] = st.getD b []) := by
  constructor
  · exact requireAllO_owns
  · intro F g hg files st b hb
    exact readLoop_preserves g hg files 0 [] st st.length (le_refl _)
      (by simp) b hb

/-- A concrete fresh per-file reader for the C6 witness: each call returns
one channel referencing a newly appended buffer. -/
def gEx : ℕ → BufStore → OutM × BufStore :=
  fun f st => ([("A", ⟨st.length, false⟩)], st ++ [[(f : ℚ)]])

theorem gEx_fresh : FreshReader gEx := by
  intro f st
  refine ⟨?_, ?_, ?_⟩
  · intro b hb
    simp only [gEx]
    exact List.getD_append _ _ _ _ hb
  · simp [gEx]
  · intro kv hkv
    simp only [gEx, List.mem_singleton] at hkv
    subst hkv
    exact le_refl _

/-- Witness for C6: a retained buffer (slot 0 holding `[42]`) survives a
two-file read untouched. -/
theorem read_copy_on_append_isolation_witness :
    (0 : ℕ) < ([[(42 : ℚ)]] : BufStore).length ∧
    (read_files gEx [7, 8] [[(42 : ℚ)]]).2.getD 0 [] = [(42 : ℚ)] := by
  constructor
  · decide
  · have h := read_copy_on_append_isolation.2 ℕ gEx gEx_fresh [7, 8]
      [[(42 : ℚ)]] 0 (by decide)
    simpa using h

end Gwpy
